import Mathlib

/-!
# squirelo-voice-recognition: the static file server (`main.go`)

`main.go` is a single `main` function that

1. declares the string flag `listen-addr` (default `:5000`) and parses the command line,
2. registers `http.FileServer(http.Dir("./static"))` on the pattern `/` of the default mux,
3. logs `Listening on <addr>...`,
4. calls `http.ListenAndServe(listenAddr, nil)` and, when that returns an error, `log.Fatal`s.

The development has two layers.

* `main` itself is embedded statement by statement as a pure function from the command line
  and the behaviour of the network (`Net`) to the observable run (`Run`): the handlers
  registered, the lines written through package `log`, the calls to `ListenAndServe` and the
  way the process ends.
* The Go standard library calls that `main` makes are given by small executable models that
  follow the library's own code: `flag` (`FlagSet.parseOne`, `FlagSet.Parse`), `log`
  (`Printf`, `Fatal`), and, for the routing claims, `path.Clean` and
  `net/http`'s `cleanPath` and `ServeMux`.  The library is not part of the repository; the
  models are the trusted base of the theorems that mention them.  The repository pins no Go
  release, and releases differ in how the mux canonicalizes a request (`MuxRelease`): the
  routing theorems hold for every such release.

A Go `string` is modelled by a Lean `String` (or `List Char`) in which every character stands
for one byte; all tests made by the modelled code compare single bytes with ASCII characters.
-/

namespace StaticServer

/-! ## Package `flag` (string flags only, which is all `main` declares) -/

/-- Go `flag.FlagSet`, restricted to string-valued flags: `formal` maps a flag name to the
current value of the variable it is bound to, `args` are the arguments still to be parsed. -/
structure FlagSet where
  formal : List (String × String)
  args : List String
deriving DecidableEq

/-- Errors of `FlagSet.parseOne`: `flag.ErrHelp`, or the error built by `f.failf`. -/
inductive FlagError where
  | ErrHelp
  | failf (msg : String)
deriving DecidableEq

/-- Go `f.formal[name]`. -/
def FlagSet.lookup (f : FlagSet) (name : String) : Option String :=
  (f.formal.find? (fun e => e.1 == name)).map (fun e => e.2)

/-- Go `flag.Value.Set` of a `stringValue`: `*p = val`, never an error. -/
def FlagSet.set (f : FlagSet) (name value : String) : FlagSet :=
  { f with formal := f.formal.map (fun e => if e.1 == name then (e.1, value) else e) }

/-- Go `FlagSet.StringVar(p, name, value, usage)`: defines the flag and stores the default
in the variable. -/
def FlagSet.StringVar (f : FlagSet) (name value : String) : FlagSet :=
  { f with formal := f.formal ++ [(name, value)] }

/-- The loop `for i := 1; i < len(name); i++ { if name[i] == '=' { ... } }` of `parseOne`:
splits `name` at the first `=` that is not its first byte.  `seen` holds the bytes before
index `i` in reverse.  Result: `(name, hasValue, value)`. -/
def splitEq : List Char → List Char → List Char × Bool × List Char
  | seen, [] => (seen.reverse, false, [])
  | seen, c :: rest =>
    if c = '=' then (seen.reverse, true, rest) else splitEq (c :: seen) rest

/-- Go `FlagSet.parseOne`: parses one flag.  Returns the updated flag set, whether a flag
was seen, and the error. -/
def FlagSet.parseOne (f : FlagSet) : FlagSet × Bool × Option FlagError :=
  match f.args with
  | [] => (f, false, none)
  | s :: rest =>
    let sl := s.toList
    if sl.length < 2 ∨ sl.head? ≠ some '-' then (f, false, none)
    else
      let numMinuses := if sl.get? 1 = some '-' then 2 else 1
      if numMinuses = 2 ∧ sl.length = 2 then
        -- "--" terminates the flags
        ({ f with args := rest }, false, none)
      else
        let name := sl.drop numMinuses
        if name.length = 0 ∨ name.head? = some '-' ∨ name.head? = some '=' then
          (f, false, some (.failf ("bad flag syntax: " ++ s)))
        else
          -- it's a flag. does it have an argument?
          let f := { f with args := rest }
          let (nm, hasValue, value) :=
            match name with
            | [] => (([] : List Char), false, ([] : List Char))
            | c :: cs => splitEq [c] cs
          let name := String.mk nm
          match f.lookup name with
          | none =>
            if name = "help" ∨ name = "h" then (f, false, some .ErrHelp)
            else (f, false, some (.failf ("flag provided but not defined: -" ++ name)))
          | some _ =>
            -- It must have a value, which might be the next argument.
            if hasValue then (f.set name (String.mk value), true, none)
            else
              match f.args with
              | v :: rest' => ({ f with args := rest' }.set name v, true, none)
              | [] => (f, false, some (.failf ("flag needs an argument: -" ++ name)))

/-- Result of `flag.Parse` on the command-line flag set, whose error handling is
`ExitOnError`: parsing either succeeds or ends the process through `os.Exit`. -/
inductive ParseResult where
  | ok (f : FlagSet)
  | exit (code : Nat)
deriving DecidableEq

/-- The `for` loop of Go `FlagSet.Parse` with `ExitOnError`: `os.Exit(0)` on `ErrHelp`,
`os.Exit(2)` on every other error.  Every round that continues has consumed an argument, so
`fuel` greater than the number of arguments is never used up (`parseLoop_fuel`). -/
def FlagSet.parseLoop : Nat → FlagSet → ParseResult
  | 0, f => .ok f
  | fuel + 1, f =>
    match f.parseOne with
    | (f', true, _) => FlagSet.parseLoop fuel f'
    | (f', false, none) => .ok f'
    | (_, false, some .ErrHelp) => .exit 0
    | (_, false, some (.failf _)) => .exit 2

/-- Go `FlagSet.Parse(arguments)`. -/
def FlagSet.Parse (f : FlagSet) (arguments : List String) : ParseResult :=
  FlagSet.parseLoop (arguments.length + 1) { f with args := arguments }

/-- Go `flag.CommandLine` before any flag is defined. -/
def CommandLine : FlagSet := { formal := [], args := [] }

/-! ## Package `path` -/

/-- The loop `for out.w > dotdot && out.index(out.w) != '/' { out.w-- }` of `Clean`, started
at index `w`; the result is the final value of `out.w`. -/
def backtrackLoop (out : List Char) (dotdot : Nat) : Nat → Nat
  | 0 => 0
  | w + 1 =>
    if w + 1 > dotdot ∧ out.get? (w + 1) ≠ some '/' then backtrackLoop out dotdot w
    else w + 1

/-- The main loop `for r < n` of Go `path.Clean`.  `rest` is `path[r:]`, `out` holds the
`out.w` bytes written so far, `dotdot` is the index where `..` must stop. -/
def cleanLoop (rooted : Bool) : Nat → List Char → List Char → Nat → List Char
  | 0, _, out, _ => out
  | fuel + 1, rest, out, dotdot =>
    match rest with
    | [] => out
    | c :: tl =>
      if c = '/' then
        -- empty path element
        cleanLoop rooted fuel tl out dotdot
      else if c = '.' ∧ (tl = [] ∨ tl.head? = some '/') then
        -- . element
        cleanLoop rooted fuel tl out dotdot
      else if c = '.' ∧ tl.head? = some '.' ∧ (tl.tail = [] ∨ tl.tail.head? = some '/') then
        -- .. element: remove to last /
        if out.length > dotdot then
          -- can backtrack
          cleanLoop rooted fuel tl.tail
            (out.take (backtrackLoop out dotdot (out.length - 1))) dotdot
        else if rooted = false then
          -- cannot backtrack, but not rooted, so append .. element.
          let out' := (if out.length > 0 then out ++ ['/'] else out) ++ ['.', '.']
          cleanLoop rooted fuel tl.tail out' out'.length
        else cleanLoop rooted fuel tl.tail out dotdot
      else
        -- real path element: add slash if needed, copy element
        let out' :=
          if (rooted = true ∧ out.length ≠ 1) ∨ (rooted = false ∧ out.length ≠ 0) then
            out ++ ['/']
          else out
        cleanLoop rooted fuel (tl.dropWhile (· ≠ '/'))
          (out' ++ c :: tl.takeWhile (· ≠ '/')) dotdot

/-- Go `path.Clean` on the bytes of the path. -/
def cleanBytes (path : List Char) : List Char :=
  if path = [] then ['.']
  else
    let out :=
      if path.head? = some '/' then cleanLoop true path.length path.tail ['/'] 1
      else cleanLoop false path.length path [] 0
    -- Turn empty string into "."
    if out.length = 0 then ['.'] else out

/-- Go `path.Clean`. -/
def Clean (path : String) : String := String.mk (cleanBytes path.toList)


/-- Go `strings.Split(p, "/")` on bytes: the `/`-separated elements of `p`. -/
def splitSlash : List Char → List (List Char)
  | [] => [[]]
  | c :: cs =>
    if c = '/' then [] :: splitSlash cs
    else
      match splitSlash cs with
      | [] => [[c]]
      | s :: ss => (c :: s) :: ss

/-- The path has an element that is exactly `..`. -/
def hasDotDot (p : List Char) : Prop := ['.', '.'] ∈ splitSlash p

instance (p : List Char) : Decidable (hasDotDot p) := by
  unfold hasDotDot; infer_instance
/-! ## Package `net/http`: routing -/

/-- Go `url.URL`, the fields used by the mux. -/
structure URL where
  Path : String
  RawQuery : String
deriving DecidableEq

/-- Go `http.Request` as handed to the server's handler: the fields routing looks at.
`Host` is `r.Host`, `URLHost` is `r.URL.Host`, `Path` is `r.URL.Path` (already
percent-decoded), `EscapedPath` is `r.URL.EscapedPath()` (the path as the client sent it,
percent-encoding kept), `RawQuery` is `r.URL.RawQuery`. -/
structure Request where
  Method : String
  RequestURI : String
  Host : String
  URLHost : String
  Path : String
  EscapedPath : String
  RawQuery : String
deriving DecidableEq

/-- The two points on which releases of `net/http` differ in the mux's canonicalization of a
request.  `escaped`: the mux cleans `r.URL.EscapedPath()` (Go 1.22 and later) rather than
the decoded `r.URL.Path` (earlier releases, and later ones run with `httpmuxgo121=1`).
`temporary`: the mux redirects with 307 Temporary Redirect rather than with 301 Moved
Permanently. -/
structure MuxRelease where
  escaped : Bool
  temporary : Bool
deriving DecidableEq

/-- The status code of the mux's redirects in a release. -/
def MuxRelease.code (rel : MuxRelease) : Nat :=
  if rel.temporary then 307 else 301

/-- The path the mux of a release routes on. -/
def MuxRelease.pathOf (rel : MuxRelease) (r : Request) : String :=
  if rel.escaped then r.EscapedPath else r.Path

/-- The handlers that occur: the file server `main` builds, and the two that the mux
itself answers with. -/
inductive Handler where
  /-- Go `http.FileServer(http.Dir(root))`. -/
  | FileServer (root : String)
  /-- Go `http.RedirectHandler(u.String(), code)`. -/
  | RedirectHandler (u : URL) (code : Nat)
  /-- Go `http.NotFoundHandler()`. -/
  | NotFoundHandler
deriving DecidableEq

/-- Go `http.ServeMux`: `m` is the map from pattern to entry (as an association list of
pattern and handler), `es` the entries whose pattern ends in `/`, longest pattern first,
`hosts` whether any pattern contains a host name. -/
structure ServeMux where
  m : List (String × Handler)
  es : List (String × Handler)
  hosts : Bool
deriving DecidableEq

/-- Go `http.DefaultServeMux` at program start. -/
def DefaultServeMux : ServeMux := { m := [], es := [], hosts := false }

/-- Go `appendSorted`: insert `e` before the first entry with a shorter pattern. -/
def appendSorted (es : List (String × Handler)) (e : String × Handler) :
    List (String × Handler) :=
  es.takeWhile (fun x => decide (¬ x.1.length < e.1.length)) ++ e ::
    es.dropWhile (fun x => decide (¬ x.1.length < e.1.length))

/-- Go `(*ServeMux).Handle(pattern, handler)`; `Except.error` is a panic.  (The check for a
`nil` handler has no counterpart: a `Handler` here is never `nil`.) -/
def ServeMux.Handle (mux : ServeMux) (pattern : String) (handler : Handler) :
    Except String ServeMux :=
  if pattern = "" then .error "http: invalid pattern"
  else if mux.m.any (fun e => e.1 == pattern) then
    .error ("http: multiple registrations for " ++ pattern)
  else
    .ok { m := mux.m ++ [(pattern, handler)]
          es := if pattern.toList.getLast? = some '/' then appendSorted mux.es (pattern, handler)
                else mux.es
          hosts := if pattern.toList.head? ≠ some '/' then true else mux.hosts }

/-- Go `cleanPath` of `net/http` on bytes: the canonical path for `p`, eliminating `.` and
`..` elements. -/
def cleanPathBytes (p : List Char) : List Char :=
  if p = [] then ['/']
  else
    let p := if p.head? ≠ some '/' then '/' :: p else p
    let np := cleanBytes p
    -- path.Clean removes trailing slash except for root;
    -- put the trailing slash back if necessary.
    if p.getLast? = some '/' ∧ np ≠ ['/'] then
      -- Fast path for common case of p being the string we want:
      if p.length = np.length + 1 ∧ np.isPrefixOf p = true then p
      else np ++ ['/']
    else np

/-- Go `cleanPath` of `net/http`. -/
def cleanPath (p : String) : String := String.mk (cleanPathBytes p.toList)

/-- Go `(*ServeMux).match`: exact match first, then the longest pattern ending in `/` that
is a prefix of the path. -/
def ServeMux.match_ (mux : ServeMux) (path : String) : Option (Handler × String) :=
  match mux.m.find? (fun e => e.1 == path) with
  | some e => some (e.2, e.1)
  | none =>
    match mux.es.find? (fun e => e.1.toList.isPrefixOf path.toList) with
    | some e => some (e.2, e.1)
    | none => none

/-- Go `(*ServeMux).handler`: host-specific patterns take precedence; no match gives
`NotFoundHandler()`. -/
def ServeMux.handler (mux : ServeMux) (host path : String) : Handler × String :=
  let r := if mux.hosts then mux.match_ (host ++ path) else none
  let r := match r with
    | some x => some x
    | none => mux.match_ path
  match r with
  | some x => x
  | none => (.NotFoundHandler, "")

/-- Go `(*ServeMux).shouldRedirectRLocked`: whether `path` should be redirected to
`path + "/"`. -/
def ServeMux.shouldRedirectRLocked (mux : ServeMux) (host path : String) : Bool :=
  let p := [path, host ++ path]
  if p.any (fun c => mux.m.any (fun e => e.1 == c)) then false
  else if path.toList.length = 0 then false
  else if p.any (fun c => mux.m.any (fun e => e.1 == c ++ "/")) then
    decide (path.toList.getLast? ≠ some '/')
  else false

/-- Go `(*ServeMux).redirectToPathSlash`: the URL to redirect to, if any. -/
def ServeMux.redirectToPathSlash (mux : ServeMux) (host path rawQuery : String) : Option URL :=
  if mux.shouldRedirectRLocked host path then
    some { Path := path ++ "/", RawQuery := rawQuery }
  else none

/-- Go `(*ServeMux).Handler` (`findHandler` since Go 1.22) in the release `rel`: the handler
to use for the request and the pattern that matched.  `CONNECT` requests are not
canonicalized; all other requests have the port stripped from the host (`stripHostPort`,
left as a parameter) and the path cleaned, and a request whose path is not in canonical
form is answered by a redirect to the cleaned path.  The path is `rel.pathOf r` and the
redirect status `rel.code`. -/
def ServeMux.Handler (mux : ServeMux) (rel : MuxRelease) (stripHostPort : String → String)
    (r : Request) : Handler × String :=
  if r.Method = "CONNECT" then
    match mux.redirectToPathSlash r.URLHost (rel.pathOf r) r.RawQuery with
    | some u => (.RedirectHandler u rel.code, u.Path)
    | none => mux.handler r.Host (rel.pathOf r)
  else
    let host := stripHostPort r.Host
    let path := cleanPath (rel.pathOf r)
    match mux.redirectToPathSlash host path r.RawQuery with
    | some u => (.RedirectHandler u rel.code, u.Path)
    | none =>
      if path ≠ rel.pathOf r then
        (.RedirectHandler { Path := path, RawQuery := r.RawQuery } rel.code,
          (mux.handler host path).2)
      else mux.handler host (rel.pathOf r)

/-- What a handler writes, as far as it is modelled. -/
inductive Response where
  /-- Go `http.Redirect(w, r, u.String(), code)`: status `code` and a `Location` header. -/
  | redirect (u : URL) (code : Nat)
  /-- Go `http.Error(w, msg, code)`. -/
  | error (msg : String) (code : Nat)
  /-- Go `w.WriteHeader(code)` and nothing else. -/
  | bare (code : Nat)
  /-- Written by a file server: status and body. -/
  | file (status : Nat) (body : String)
deriving DecidableEq

/-- The status code of a response. -/
def Response.status : Response → Nat
  | .redirect _ code => code
  | .error _ code => code
  | .bare code => code
  | .file status _ => status

/-- The behaviour of `http.FileServer(http.Dir(root))` on the machine the program runs on:
for a root and a request, the status and body it writes.  It is a parameter of the
development: it depends on the file system and on library code that the routing theorems do
not look into. -/
abbrev FileServing := String → Request → Nat × String

/-- The method `ServeHTTP` of each handler. -/
def Handler.ServeHTTP (files : FileServing) : Handler → Request → Response
  | .FileServer root, r => .file (files root r).1 (files root r).2
  | .RedirectHandler u code, _ => .redirect u code
  | .NotFoundHandler, _ => .error "404 page not found" 404

/-- Go `(*ServeMux).ServeHTTP`. -/
def ServeMux.ServeHTTP (mux : ServeMux) (rel : MuxRelease) (stripHostPort : String → String)
    (files : FileServing) (r : Request) : Response :=
  if r.RequestURI = "*" then .bare 400
  else (mux.Handler rel stripHostPort r).1.ServeHTTP files r

/-- Go `serverHandler.ServeHTTP`: a `nil` handler selects `DefaultServeMux` (here `mux`),
and `OPTIONS *` is answered by `globalOptionsHandler` (status 200, empty body). -/
def serverHandler (handler : Option Handler) (mux : ServeMux) (rel : MuxRelease)
    (stripHostPort : String → String) (files : FileServing) (r : Request) : Response :=
  if r.RequestURI = "*" ∧ r.Method = "OPTIONS" then .bare 200
  else
    match handler with
    | none => mux.ServeHTTP rel stripHostPort files r
    | some h => h.ServeHTTP files r

/-! ## `ListenAndServe`, package `log`, and the process -/

/-- What `http.ListenAndServe(addr, handler)` does, as seen by its caller: either the
listener is bound (to the concrete address `bound`) and the call serves connections without
returning, or the call returns `err` (`none` is Go's `nil`; an error is represented by its
`Error()` text). -/
inductive ListenResult where
  | serves (bound : String)
  | returns (err : Option String)
deriving DecidableEq

/-- The network environment: the outcome of `ListenAndServe` for each address. -/
abbrev Net := String → ListenResult

/-- How the process ends. -/
inductive Outcome where
  /-- Go `os.Exit(code)`. -/
  | exited (code : Nat)
  /-- A run-time panic. -/
  | panicked (msg : String)
  /-- The function `main` returned. -/
  | returned
  /-- The process keeps serving on the bound address. -/
  | serving (bound : String)
deriving DecidableEq

/-- The observable run of `main`. -/
structure Run where
  /-- The state of `http.DefaultServeMux`. -/
  mux : ServeMux
  /-- Lines written through package `log`, oldest first. -/
  log : List String
  /-- Calls of `http.ListenAndServe`, as `(addr, handler)`; `none` is the `nil` handler,
  which selects `http.DefaultServeMux`. -/
  listened : List (String × Option Handler)
  outcome : Outcome
deriving DecidableEq

/-- The message of `log.Printf("Listening on %s...", addr)`. -/
def listeningLine (addr : String) : String :=
  "Listening on " ++ addr ++ "..."

/-! ## `main` -/

/-- Go `main` of `main.go`, run on the command-line arguments `args` (`os.Args[1:]`) in the
network environment `net`. -/
def main (args : List String) (net : Net) : Run :=
  -- flag.StringVar(&listenAddr, "listen-addr", ":5000", "server listen address")
  let flags := CommandLine.StringVar "listen-addr" ":5000"
  -- flag.Parse()
  match flags.Parse args with
  | .exit code => { mux := DefaultServeMux, log := [], listened := [], outcome := .exited code }
  | .ok flags =>
    let listenAddr := (flags.lookup "listen-addr").getD ""
    -- fs := http.FileServer(http.Dir("./static"))
    let fs := Handler.FileServer "./static"
    -- http.Handle("/", fs)
    match DefaultServeMux.Handle "/" fs with
    | .error msg =>
      { mux := DefaultServeMux, log := [], listened := [], outcome := .panicked msg }
    | .ok mux =>
      -- log.Printf("Listening on %s...", listenAddr)
      let log := [listeningLine listenAddr]
      -- err := http.ListenAndServe(listenAddr, nil)
      let listened : List (String × Option Handler) := [(listenAddr, none)]
      match net listenAddr with
      | .serves bound =>
        { mux := mux, log := log, listened := listened, outcome := .serving bound }
      | .returns none =>
        { mux := mux, log := log, listened := listened, outcome := .returned }
      | .returns (some err) =>
        -- log.Fatal(err): Print followed by os.Exit(1)
        { mux := mux, log := log ++ [err], listened := listened, outcome := .exited 1 }


/-- The default mux after `http.Handle("/", http.FileServer(http.Dir("./static")))`. -/
def staticMux : ServeMux :=
  { m := [("/", .FileServer "./static")], es := [("/", .FileServer "./static")], hosts := false }

/-- The answer of the server that `main` started to the request `r`, when the program is
built with the release `rel` of `net/http`: `none` when the run did not end up serving. -/
def Run.respond (run : Run) (rel : MuxRelease) (stripHostPort : String → String)
    (files : FileServing) (r : Request) : Option Response :=
  match run.outcome, run.listened with
  | .serving _, [(_, handler)] =>
    some (serverHandler handler run.mux rel stripHostPort files r)
  | _, _ => none

/-! ## Auxiliary definitions for the proofs about `Clean` -/

/-- A real path element as `Clean` copies it: not empty, without `/`, and not `..`. -/
def IsElem (e : List Char) : Prop := e ≠ [] ∧ '/' ∉ e ∧ e ≠ ['.', '.']

/-- The buffer holding the elements `rs` (last element first), each preceded by `/`. -/
def body : List (List Char) → List Char
  | [] => []
  | e :: rs => body rs ++ '/' :: e

/-- The buffer of a rooted `Clean` after the elements `rs` (last element first). -/
def render (rs : List (List Char)) : List Char :=
  if rs = [] then ['/'] else body rs

/-! ## Lemmas: package `flag` -/

theorem parse_listen_addr (X : String) :
    (CommandLine.StringVar "listen-addr" ":5000").Parse ["--listen-addr", X]
      = .ok { formal := [("listen-addr", X)], args := [] } := by
  rfl

theorem parse_nil :
    (CommandLine.StringVar "listen-addr" ":5000").Parse []
      = .ok { formal := [("listen-addr", ":5000")], args := [] } := by
  rfl

theorem set_args (f : FlagSet) (n v : String) : (f.set n v).args = f.args := rfl

theorem parseOne_seen (f f' : FlagSet) (e : Option FlagError)
    (h : f.parseOne = (f', true, e)) : f'.args.length < f.args.length := by
  unfold FlagSet.parseOne at h
  split at h
  · simp at h
  · rename_i s rest hargs
    simp only at h
    generalize (if s.toList.get? 1 = some '-' then 2 else 1) = nm at h
    generalize (match List.drop nm s.toList with
      | [] => (([] : List Char), false, ([] : List Char))
      | c :: cs => splitEq [c] cs) = sp at h
    obtain ⟨n, hv, v⟩ := sp
    simp only at h
    split_ifs at h <;> (try split at h) <;> (try split at h) <;>
      first
      | (simp at h; done)
      | (simp only [Prod.mk.injEq] at h
         obtain ⟨rfl, -⟩ := h
         simp_all [FlagSet.set]
         try omega)

/-- Fuel above the number of arguments is never used up: more fuel changes nothing. -/
theorem parseLoop_fuel (fuel : Nat) : ∀ (f : FlagSet) (k : Nat), f.args.length < fuel →
    FlagSet.parseLoop (fuel + k) f = FlagSet.parseLoop fuel f := by
  induction fuel with
  | zero => intro f k h; omega
  | succ n ih =>
    intro f k h
    have e : n + 1 + k = (n + k) + 1 := by omega
    rw [e]
    unfold FlagSet.parseLoop
    rcases hp : f.parseOne with ⟨f', seen, err⟩
    cases seen with
    | true =>
      have := parseOne_seen f f' err hp
      simp only
      exact ih f' k (by omega)
    | false => rcases err with _ | (_ | _) <;> rfl


theorem parseLoop_exit_code (fuel : Nat) : ∀ (f : FlagSet) (code : Nat),
    FlagSet.parseLoop fuel f = .exit code → code = 0 ∨ code = 2 := by
  induction fuel with
  | zero => intro f code h; simp [FlagSet.parseLoop] at h
  | succ n ih =>
    intro f code h
    unfold FlagSet.parseLoop at h
    rcases hp : f.parseOne with ⟨f', seen, err⟩
    rw [hp] at h
    cases seen with
    | true => exact ih f' code h
    | false =>
      rcases err with _ | (_ | _) <;> simp at h <;> omega

/-! ### `Clean` of a rooted path has no `..` element -/

theorem splitSlash_ne_nil (p : List Char) : splitSlash p ≠ [] := by
  cases p with
  | nil => simp [splitSlash]
  | cons c cs =>
    unfold splitSlash
    split_ifs
    · simp
    · split <;> simp

theorem splitSlash_append_slash (a b : List Char) :
    splitSlash (a ++ '/' :: b) = splitSlash a ++ splitSlash b := by
  induction a with
  | nil => simp [splitSlash]
  | cons c a ih =>
    by_cases hc : c = '/'
    · simp [splitSlash, hc, ih]
    · have hne := splitSlash_ne_nil a
      rcases hs : splitSlash a with _ | ⟨s, ss⟩
      · exact absurd hs hne
      · simp [splitSlash, hc, ih, hs]

theorem splitSlash_no_slash (e : List Char) (h : '/' ∉ e) : splitSlash e = [e] := by
  induction e with
  | nil => rfl
  | cons c e ih =>
    have hc : c ≠ '/' := fun h' => h (by simp [h'])
    have he : '/' ∉ e := fun h' => h (by simp [h'])
    simp [splitSlash, hc, ih he]

theorem body_length (e : List Char) (rs : List (List Char)) (he : e ≠ []) :
    2 ≤ (body (e :: rs)).length := by
  have : 1 ≤ e.length := List.length_pos.mpr he
  simp [body]; omega

theorem splitSlash_body (rs : List (List Char)) (h : ∀ e ∈ rs, IsElem e) :
    ∀ s ∈ splitSlash (body rs), s = [] ∨ s ∈ rs := by
  induction rs with
  | nil => simp [body, splitSlash]
  | cons e rs ih =>
    intro s hs
    have he := h e (by simp)
    rw [body, splitSlash_append_slash, splitSlash_no_slash e he.2.1] at hs
    rcases List.mem_append.mp hs with h1 | h1
    · rcases ih (fun x hx => h x (by simp [hx])) s h1 with h2 | h2
      · exact Or.inl h2
      · exact Or.inr (by simp [h2])
    · simp at h1; exact Or.inr (by simp [h1])

theorem render_no_dotdot (rs : List (List Char)) (h : ∀ e ∈ rs, IsElem e) :
    ¬ hasDotDot (render rs) := by
  intro hd
  unfold hasDotDot render at hd
  split_ifs at hd with hr
  · revert hd; decide
  · rcases splitSlash_body rs h _ hd with h1 | h1
    · simp at h1
    · exact (h _ h1).2.2 rfl

theorem backtrackLoop_stop (P e : List Char) (he : '/' ∉ e) (hP : P ≠ []) :
    ∀ k, k ≤ e.length → backtrackLoop (P ++ '/' :: e) 1 (P.length + k) = P.length := by
  have hPl : 1 ≤ P.length := List.length_pos.mpr hP
  intro k
  induction k with
  | zero =>
    intro _
    obtain ⟨m, hm⟩ : ∃ m, P.length = m + 1 := ⟨P.length - 1, by omega⟩
    have hget : (P ++ '/' :: e).get? P.length = some '/' := by
      simp only [List.get?_eq_getElem?]
      rw [List.getElem?_append_right (le_refl _)]
      simp
    rw [Nat.add_zero]
    conv_lhs => rw [hm]
    rw [backtrackLoop, ← hm, hget]
    simp
  | succ k ih =>
    intro hk
    have : P.length + (k + 1) = (P.length + k) + 1 := by omega
    rw [this, backtrackLoop]
    have hget : (P ++ '/' :: e).get? (P.length + k + 1) = e.get? k := by
      simp only [List.get?_eq_getElem?]
      rw [List.getElem?_append_right (by omega)]
      have : P.length + k + 1 - P.length = k + 1 := by omega
      rw [this]; simp
    have hne : e.get? k ≠ some '/' := by
      intro h'
      have := List.get?_mem h'
      exact he this
    rw [hget]
    have hgt : P.length + k + 1 > 1 := by omega
    simp only [hgt, hne, ne_eq, not_false_eq_true, and_self, if_true]
    exact ih (by omega)

theorem backtrackLoop_root (e : List Char) (he : '/' ∉ e) :
    ∀ k, k < e.length → backtrackLoop ('/' :: e) 1 (k + 1) = 1 := by
  intro k
  induction k with
  | zero => intro _; simp [backtrackLoop]
  | succ k ih =>
    intro hk
    rw [backtrackLoop]
    have hget : ('/' :: e).get? (k + 1 + 1) = e.get? (k + 1) := by simp
    have hne : e.get? (k + 1) ≠ some '/' := by
      intro h'
      exact he (List.get?_mem h')
    rw [hget]
    have hgt : k + 1 + 1 > 1 := by omega
    simp only [hgt, hne, ne_eq, not_false_eq_true, and_self, if_true]
    exact ih (by omega)

theorem backtrack_render (e : List Char) (rs : List (List Char)) (he : IsElem e) :
    (render (e :: rs)).take
      (backtrackLoop (render (e :: rs)) 1 ((render (e :: rs)).length - 1)) = render rs := by
  have hel : 1 ≤ e.length := List.length_pos.mpr he.1
  by_cases hr : rs = []
  · subst hr
    have h1 : render [e] = '/' :: e := by simp [render, body]
    have h2 : render ([] : List (List Char)) = ['/'] := by simp [render]
    rw [h1, h2]
    have : ('/' :: e).length - 1 = (e.length - 1) + 1 := by simp; omega
    rw [this, backtrackLoop_root e he.2.1 (e.length - 1) (by omega)]
    simp
  · have h1 : render (e :: rs) = body rs ++ '/' :: e := by simp [render, body]
    have h2 : render rs = body rs := by simp [render, hr]
    have hb : body rs ≠ [] := by
      cases rs with
      | nil => exact absurd rfl hr
      | cons x xs => simp [body]
    rw [h1, h2]
    have : (body rs ++ '/' :: e).length - 1 = (body rs).length + e.length := by simp
    rw [this, backtrackLoop_stop (body rs) e he.2.1 hb e.length (le_refl _)]
    simp

theorem takeWhile_elem (c : Char) (tl : List Char) (hc : c ≠ '/')
    (h3 : ¬ (c = '.' ∧ tl.head? = some '.' ∧ (tl.tail = [] ∨ tl.tail.head? = some '/'))) :
    IsElem (c :: tl.takeWhile (· ≠ '/')) := by
  refine ⟨by simp, ?_, ?_⟩
  · intro hm
    rcases List.mem_cons.mp hm with h | h
    · exact hc h.symm
    · have := List.mem_takeWhile_imp h
      simp at this
  · intro he
    apply h3
    simp only [List.cons.injEq] at he
    obtain ⟨hc1, ht⟩ := he
    refine ⟨hc1, ?_⟩
    cases tl with
    | nil => simp at ht
    | cons d tl' =>
      by_cases hd : d = '/'
      · simp [List.takeWhile, hd] at ht
      · simp only [List.takeWhile, ne_eq, hd, not_false_eq_true, decide_True,
          List.cons.injEq] at ht
        obtain ⟨hd1, ht'⟩ := ht
        refine ⟨by simp [hd1], ?_⟩
        cases tl' with
        | nil => simp
        | cons x tl'' =>
          right
          by_cases hx : x = '/'
          · simp [hx]
          · simp [List.takeWhile, hx] at ht'

theorem addSlash_render (rs : List (List Char)) (h : ∀ e ∈ rs, IsElem e)
    (e : List Char) (_he : IsElem e) :
    (if (true = true ∧ (render rs).length ≠ 1) ∨ (true = false ∧ (render rs).length ≠ 0) then
        render rs ++ ['/']
      else render rs) ++ e = render (e :: rs) := by
  cases rs with
  | nil => simp [render, body]
  | cons x rs' =>
    have hl := body_length x rs' (h x (by simp)).1
    have h6 : (true = true ∧ (render (x :: rs')).length ≠ 1)
        ∨ (true = false ∧ (render (x :: rs')).length ≠ 0) := by
      left
      refine ⟨rfl, ?_⟩
      simp only [render, List.cons_ne_nil, if_false]
      omega
    rw [if_pos h6]
    simp [render, body]

/-- Loop invariant of `Clean` on a rooted path: the buffer is always `/` followed by real
elements separated by single slashes. -/
theorem cleanLoop_rooted (fuel : Nat) : ∀ (rest : List Char) (rs : List (List Char)),
    (∀ e ∈ rs, IsElem e) →
    ∃ rs', (∀ e ∈ rs', IsElem e) ∧ cleanLoop true fuel rest (render rs) 1 = render rs' := by
  induction fuel with
  | zero => intro rest rs h; exact ⟨rs, h, rfl⟩
  | succ n ih =>
    intro rest rs h
    cases rest with
    | nil => exact ⟨rs, h, rfl⟩
    | cons c tl =>
      rw [cleanLoop]
      by_cases h1 : c = '/'
      · rw [if_pos h1]; exact ih tl rs h
      rw [if_neg h1]
      by_cases h2 : c = '.' ∧ (tl = [] ∨ tl.head? = some '/')
      · rw [if_pos h2]; exact ih tl rs h
      rw [if_neg h2]
      by_cases h3 : c = '.' ∧ tl.head? = some '.' ∧ (tl.tail = [] ∨ tl.tail.head? = some '/')
      · rw [if_pos h3]
        by_cases h4 : (render rs).length > 1
        · -- `..` with something to remove
          rw [if_pos h4]
          cases rs with
          | nil => simp [render] at h4
          | cons e rs' =>
            rw [backtrack_render e rs' (h e (by simp))]
            exact ih tl.tail rs' (fun x hx => h x (by simp [hx]))
        · -- `..` at the root: nothing happens
          rw [if_neg h4, if_neg (by simp)]
          exact ih tl.tail rs h
      · rw [if_neg h3]
        have he := takeWhile_elem c tl h1 h3
        have key := addSlash_render rs h (c :: tl.takeWhile (· ≠ '/')) he
        simp only [] at key ⊢
        rw [key]
        apply ih
        intro x hx
        rcases List.mem_cons.mp hx with hx | hx
        · rw [hx]; exact he
        · exact h x hx

theorem render_head (rs : List (List Char)) : (render rs).head? = some '/' := by
  unfold render
  split_ifs with h
  · rfl
  · induction rs with
    | nil => exact absurd rfl h
    | cons e rs ih =>
      by_cases hr : rs = []
      · subst hr; simp [body]
      · have := ih hr
        rw [body, List.head?_append_of_ne_nil _ (by
          cases rs with
          | nil => exact absurd rfl hr
          | cons x xs => simp [body])]
        exact this

/-- Go `path.Clean` of a rooted path is `/` followed by real elements separated by single
slashes. -/
theorem cleanBytes_rooted (p : List Char) (hp : p.head? = some '/') :
    ∃ rs, (∀ e ∈ rs, IsElem e) ∧ cleanBytes p = render rs := by
  have hne : p ≠ [] := by intro h; simp [h] at hp
  obtain ⟨rs, hrs, heq⟩ := cleanLoop_rooted p.length p.tail [] (by simp)
  have hr0 : render ([] : List (List Char)) = ['/'] := by simp [render]
  rw [hr0] at heq
  have hlen : (render rs).length ≠ 0 := by
    have := render_head rs
    intro h0
    rw [List.length_eq_zero] at h0
    rw [h0] at this
    simp at this
  refine ⟨rs, hrs, ?_⟩
  unfold cleanBytes
  simp only [hne, if_false, hp, if_true, heq, hlen]

theorem hasDotDot_append_slash (a : List Char) (h : ¬ hasDotDot a) :
    ¬ hasDotDot (a ++ ['/']) := by
  unfold hasDotDot at h ⊢
  rw [splitSlash_append_slash]
  simp only [splitSlash, List.mem_append, List.mem_singleton]
  intro h'
  rcases h' with h' | h'
  · exact h h'
  · simp at h'

/-- The mux's `cleanPath` always yields a rooted path without `..` elements. -/
theorem cleanPathBytes_spec (p : List Char) :
    (cleanPathBytes p).head? = some '/' ∧ ¬ hasDotDot (cleanPathBytes p) := by
  unfold cleanPathBytes
  by_cases hp : p = []
  · rw [if_pos hp]
    exact ⟨rfl, by decide⟩
  · rw [if_neg hp]
    have hroot : (if p.head? ≠ some '/' then '/' :: p else p).head? = some '/' := by
      split_ifs with h
      · rfl
      · exact not_not.mp h
    generalize (if p.head? ≠ some '/' then '/' :: p else p) = q at hroot
    obtain ⟨rs, hrs, heq⟩ := cleanBytes_rooted q hroot
    have hnd : ¬ hasDotDot (cleanBytes q) := by rw [heq]; exact render_no_dotdot rs hrs
    have hhd : (cleanBytes q).head? = some '/' := by rw [heq]; exact render_head rs
    have hnn : cleanBytes q ≠ [] := by intro h; rw [h] at hhd; simp at hhd
    simp only []
    split_ifs with h1 h2
    · -- fast path: q is the cleaned path plus the trailing slash
      refine ⟨hroot, ?_⟩
      obtain ⟨t, ht⟩ := List.isPrefixOf_iff_prefix.mp h2.2
      have hl : t.length = 1 := by
        have := congrArg List.length ht
        simp only [List.length_append] at this
        omega
      obtain ⟨x, hx⟩ := List.length_eq_one.mp hl
      subst hx
      have hx : x = '/' := by
        have := h1.1
        rw [← ht] at this
        simpa using this
      rw [← ht, hx]
      exact hasDotDot_append_slash _ hnd
    · refine ⟨?_, hasDotDot_append_slash _ hnd⟩
      rw [List.head?_append_of_ne_nil _ hnn]
      exact hhd
    · exact ⟨hhd, hnd⟩

theorem cleanPath_toList (p : String) : (cleanPath p).toList = cleanPathBytes p.toList := rfl

/-- A path with a `..` element is never in the mux's canonical form. -/
theorem cleanPath_ne_of_hasDotDot (p : String) (h : hasDotDot p.toList) : cleanPath p ≠ p := by
  intro heq
  have := (cleanPathBytes_spec p.toList).2
  rw [← cleanPath_toList, heq] at this
  exact this h

/-- More fuel than bytes left changes nothing in `Clean`'s loop. -/
theorem cleanLoop_fuel (rooted : Bool) (fuel : Nat) :
    ∀ (rest out : List Char) (dotdot k : Nat), rest.length ≤ fuel →
      cleanLoop rooted (fuel + k) rest out dotdot = cleanLoop rooted fuel rest out dotdot := by
  induction fuel with
  | zero =>
    intro rest out dotdot k h
    have : rest = [] := List.length_eq_zero.mp (by omega)
    subst this
    cases k <;> rfl
  | succ n ih =>
    intro rest out dotdot k h
    have e : n + 1 + k = (n + k) + 1 := by omega
    rw [e]
    cases rest with
    | nil => rfl
    | cons c tl =>
      have htl : tl.length ≤ n := by simpa using h
      have htt : tl.tail.length ≤ n := by
        have := List.length_tail tl
        omega
      have hdw : (tl.dropWhile (· ≠ '/')).length ≤ n :=
        le_trans (List.dropWhile_suffix _).length_le htl
      rw [cleanLoop, cleanLoop]
      simp only [ih tl out dotdot k htl, ih tl.tail _ _ k htt, ih _ _ dotdot k hdw]

/-- The model agrees with the table of Go's own tests of `path.Clean` on these entries. -/
theorem Clean_examples :
    Clean "" = "." ∧ Clean "abc/def" = "abc/def" ∧ Clean "/" = "/" ∧ Clean ".." = ".."
    ∧ Clean "../../abc" = "../../abc" ∧ Clean "abc/def/" = "abc/def" ∧ Clean "../../" = "../.."
    ∧ Clean "abc//def//ghi" = "abc/def/ghi" ∧ Clean "//abc//" = "/abc"
    ∧ Clean "/./abc/def" = "/abc/def" ∧ Clean "abc/." = "abc"
    ∧ Clean "abc/def/../ghi/../jkl" = "abc/jkl" ∧ Clean "abc/def/../.." = "."
    ∧ Clean "/abc/def/../.." = "/" ∧ Clean "abc/def/../../.." = ".."
    ∧ Clean "/abc/def/../../.." = "/"
    ∧ Clean "abc/def/../../../ghi/jkl/../../../mno" = "../../mno"
    ∧ Clean "abc/../../././../def" = "../../def" := by
  decide

/-! ### The run of `main` -/

theorem Handle_static :
    DefaultServeMux.Handle "/" (.FileServer "./static") = .ok staticMux := by
  rfl

theorem main_parse_exit (args : List String) (net : Net) (code : Nat)
    (hp : (CommandLine.StringVar "listen-addr" ":5000").Parse args = .exit code) :
    main args net = { mux := DefaultServeMux, log := [], listened := [], outcome := .exited code } := by
  simp [main, hp]

theorem main_serves (args : List String) (net : Net) (f : FlagSet) (bound : String)
    (hp : (CommandLine.StringVar "listen-addr" ":5000").Parse args = .ok f)
    (hn : net ((f.lookup "listen-addr").getD "") = .serves bound) :
    main args net =
      { mux := staticMux,
        log := [listeningLine ((f.lookup "listen-addr").getD "")],
        listened := [((f.lookup "listen-addr").getD "", none)],
        outcome := .serving bound } := by
  simp [main, hp, hn, Handle_static]

theorem main_returns_nil (args : List String) (net : Net) (f : FlagSet)
    (hp : (CommandLine.StringVar "listen-addr" ":5000").Parse args = .ok f)
    (hn : net ((f.lookup "listen-addr").getD "") = .returns none) :
    main args net =
      { mux := staticMux,
        log := [listeningLine ((f.lookup "listen-addr").getD "")],
        listened := [((f.lookup "listen-addr").getD "", none)],
        outcome := .returned } := by
  simp [main, hp, hn, Handle_static]

theorem main_returns_err (args : List String) (net : Net) (f : FlagSet) (err : String)
    (hp : (CommandLine.StringVar "listen-addr" ":5000").Parse args = .ok f)
    (hn : net ((f.lookup "listen-addr").getD "") = .returns (some err)) :
    main args net =
      { mux := staticMux,
        log := [listeningLine ((f.lookup "listen-addr").getD ""), err],
        listened := [((f.lookup "listen-addr").getD "", none)],
        outcome := .exited 1 } := by
  simp [main, hp, hn, Handle_static]

/-- After a successful parse, whatever the network does, `main` has registered exactly the
file server of `./static` on `/` and has called `ListenAndServe` exactly once, with the
value of the flag and the `nil` handler. -/
theorem main_wiring (args : List String) (net : Net) (f : FlagSet)
    (hp : (CommandLine.StringVar "listen-addr" ":5000").Parse args = .ok f) :
    (main args net).mux = staticMux
    ∧ (main args net).listened = [((f.lookup "listen-addr").getD "", none)] := by
  rcases hn : net ((f.lookup "listen-addr").getD "") with b | (_ | e)
  · rw [main_serves args net f b hp hn]; exact ⟨rfl, rfl⟩
  · rw [main_returns_nil args net f hp hn]; exact ⟨rfl, rfl⟩
  · rw [main_returns_err args net f e hp hn]; exact ⟨rfl, rfl⟩

/-- C8: the address handed to `ListenAndServe` is the value of the `listen-addr` flag: with
no arguments it is `:5000`, with `--listen-addr X` it is `X` for every string `X`, and in
general it is whatever value a successful parse leaves in the flag; the handler argument is
always `nil` and the registration is always the file server of `./static` on `/`, whatever
the flag value. -/
theorem listen_address_is_flag_value (net : Net) :
    (main [] net).listened = [(":5000", none)]
    ∧ (∀ X : String, (main ["--listen-addr", X] net).listened = [(X, none)])
    ∧ (main [] net).mux = staticMux
    ∧ (∀ X : String,
(main ["--listen-addr", X] net).mux = staticMux)
    ∧ (∀ (args : List String) (f : FlagSet),
        (CommandLine.StringVar "listen-addr" ":5000").Parse args = .ok f →
          (main args net).listened = [((f.lookup "listen-addr").getD "", none)]
          ∧ (main args net).mux = staticMux) := by
  refine ⟨?_, ?_, ?_, ?_, ?_⟩
  · exact (main_wiring [] net _ parse_nil).2
  · intro X; exact (main_wiring _ net _ (parse_listen_addr X)).2
  · exact (main_wiring [] net _ parse_nil).1
  · intro X; exact (main_wiring _ net _ (parse_listen_addr X)).1
  · intro args f hp; exact ⟨(main_wiring args net f hp).2, (main_wiring args net f hp).1⟩

/-- C8, at a concrete run: started with `--listen-addr 127.0.0.1:8080` on a network where
the bind succeeds, `main` listens on `127.0.0.1:8080` with the `nil` handler. -/
theorem listen_address_is_flag_value_witness :
    (main ["--listen-addr", "127.0.0.1:8080"] (fun _ => .serves "127.0.0.1:8080")).listened
      = [("127.0.0.1:8080", none)] :=
  (listen_address_is_flag_value (fun _ => .serves "127.0.0.1:8080")).2.1 "127.0.0.1:8080"

/-- C9 as stated fails: started with an undefined flag, `main` ends the process with exit
status 2 inside `flag.Parse`, before `ListenAndServe` is ever called, on a network whose
listener would have started without error. -/
theorem exit_without_listen_error :
    (main ["--bogus"] (fun _ => .serves ":5000")).outcome = .exited 2
    ∧ (main ["--bogus"] (fun _ => .serves ":5000")).listened = []
    ∧ (main ["--bogus"] (fun _ => .serves ":5000")).log = [] := by
  decide

/-- C9, amended: whenever `ListenAndServe` returns an error, `main` ends the process with exit
status 1 and the last line logged is that error; and the process is ended through `os.Exit`
only in two ways: that one (status 1), or `flag.Parse` rejecting the command line (status 2,
or 0 for `-h`/`-help`) before anything is registered, logged or listened on.  `main` never
panics, and it returns normally only if `ListenAndServe` returns `nil`. -/
theorem fatal_exit_paths (args : List String) (net : Net) :
    (∀ (f : FlagSet) (err : String),
        (CommandLine.StringVar "listen-addr" ":5000").Parse args = .ok f →
        net ((f.lookup "listen-addr").getD "") = .returns (some err) →
          (main args net).outcome = .exited 1 ∧ (main args net).log.getLast? = some err)
    ∧ (∀ code : Nat, (main args net).outcome = .exited code →
        ((CommandLine.StringVar "listen-addr" ":5000").Parse args = .exit code
            ∧ (code = 0 ∨ code = 2)
            ∧ (main args net).listened = [] ∧ (main args net).log = []
            ∧ (main args net).mux = DefaultServeMux)
        ∨ (code = 1 ∧ ∃ (f : FlagSet) (err : String),
              (CommandLine.StringVar "listen-addr" ":5000").Parse args = .ok f
              ∧ net ((f.lookup "listen-addr").getD "") = .returns (some err)
              ∧ (main args net).listened = [((f.lookup "listen-addr").getD "", none)]
              ∧ (main args net).log = [listeningLine ((f.lookup "listen-addr").getD ""), err]))
    ∧ (∀ msg : String, (main args net).outcome ≠ .panicked msg)
    ∧ ((main args net).outcome = .returned →
        ∃ f : FlagSet, (CommandLine.StringVar "listen-addr" ":5000").Parse args = .ok f
          ∧ net ((f.lookup "listen-addr").getD "") = .returns none) := by
  refine ⟨?_, ?_, ?_, ?_⟩
  · intro f err hp hn
    rw [main_returns_err args net f err hp hn]
    exact ⟨rfl, rfl⟩
  rotate_left
  · intro msg hc
    rcases hp : (CommandLine.StringVar "listen-addr" ":5000").Parse args with f | c
    · rcases hn : net ((f.lookup "listen-addr").getD "") with b | (_ | e)
      · rw [main_serves args net f b hp hn] at hc; simp at hc
      · rw [main_returns_nil args net f hp hn] at hc; simp at hc
      · rw [main_returns_err args net f e hp hn] at hc; simp at hc
    · rw [main_parse_exit args net c hp] at hc; simp at hc
  · intro hc
    rcases hp : (CommandLine.StringVar "listen-addr" ":5000").Parse args with f | c
    · rcases hn : net ((f.lookup "listen-addr").getD "") with b | (_ | e)
      · rw [main_serves args net f b hp hn] at hc; simp at hc
      · exact ⟨f, rfl, hn⟩
      · rw [main_returns_err args net f e hp hn] at hc; simp at hc
    · rw [main_parse_exit args net c hp] at hc; simp at hc
  · intro code hc
    rcases hp : (CommandLine.StringVar "listen-addr" ":5000").Parse args with f | c
    · right
      rcases hn : net ((f.lookup "listen-addr").getD "") with b | (_ | e)
      · rw [main_serves args net f b hp hn] at hc; simp at hc
      · rw [main_returns_nil args net f hp hn] at hc; simp at hc
      · rw [main_returns_err args net f e hp hn] at hc ⊢
        simp only [Outcome.exited.injEq] at hc
        exact ⟨hc.symm, f, e, rfl, hn, rfl, rfl⟩
    · left
      rw [main_parse_exit args net c hp] at hc ⊢
      simp only [Outcome.exited.injEq] at hc
      subst hc
      exact ⟨rfl, parseLoop_exit_code _ _ _ hp, rfl, rfl, rfl⟩

/-- C9, at a concrete run: with the default address already in use, `main` exits with
status 1 and the fatal line is the bind error. -/
theorem fatal_exit_paths_witness :
    (main [] (fun _ => .returns (some "listen tcp :5000: bind: address already in use"))).outcome
        = .exited 1
    ∧ (main [] (fun _ => .returns (some "listen tcp :5000: bind: address already in use"))).log.getLast?
        = some "listen tcp :5000: bind: address already in use" :=
  (fatal_exit_paths [] (fun _ => .returns (some "listen tcp :5000: bind: address already in use"))).1
    _ _ parse_nil rfl

/-- C10 as stated fails.  Started with `--listen-addr :0` on a network where the bind
succeeds on port 43210, the only line logged names `:0`, not the bound address.  Started
with the default address already in use, the startup line is logged all the same, followed
by a second, fatal line. -/
theorem logged_address_not_bound_address :
    (main ["--listen-addr", ":0"] (fun _ => .serves "[::]:43210")).outcome
        = .serving "[::]:43210"
    ∧ (main ["--listen-addr", ":0"] (fun _ => .serves "[::]:43210")).log
        = ["Listening on :0..."]
    ∧ (main [] (fun _ => .returns (some "listen tcp :5000: bind: address already in use"))).log
        = ["Listening on :5000...", "listen tcp :5000: bind: address already in use"] := by
  decide

/-- C10, amended: once the command line is parsed, `main` logs exactly one startup line,
`Listening on <value of listen-addr>...`, before it calls `ListenAndServe`; the line carries
the flag value verbatim and is the same whatever the listener then does.  It is the whole
log when the listener starts (or returns `nil`), and it is followed by one fatal line
carrying the error when `ListenAndServe` returns an error. -/
theorem startup_log_line (args : List String) (net : Net) (f : FlagSet)
    (hp : (CommandLine.StringVar "listen-addr" ":5000").Parse args = .ok f) :
    (main args net).log.head? = some (listeningLine ((f.lookup "listen-addr").getD ""))
    ∧ (∀ bound : String, net ((f.lookup "listen-addr").getD "") = .serves bound →
        (main args net).log = [listeningLine ((f.lookup "listen-addr").getD "")])
    ∧ (net ((f.lookup "listen-addr").getD "") = .returns none →
        (main args net).log = [listeningLine ((f.lookup "listen-addr").getD "")])
    ∧ (∀ err : String, net ((f.lookup "listen-addr").getD "") = .returns (some err) →
        (main args net).log = [listeningLine ((f.lookup "listen-addr").getD ""), err]) := by
  refine ⟨?_, ?_, ?_, ?_⟩
  · rcases hn : net ((f.lookup "listen-addr").getD "") with b | (_ | e)
    · rw [main_serves args net f b hp hn]; rfl
    · rw [main_returns_nil args net f hp hn]; rfl
    · rw [main_returns_err args net f e hp hn]; rfl
  · intro b hn; rw [main_serves args net f b hp hn]
  · intro hn; rw [main_returns_nil args net f hp hn]
  · intro e hn; rw [main_returns_err args net f e hp hn]

/-- C10, at a concrete run: with `--listen-addr :0` and a listener bound to port 43210, the
startup line is `Listening on :0...`. -/
theorem startup_log_line_witness :
    (main ["--listen-addr", ":0"] (fun _ => .serves "[::]:43210")).log.head?
      = some (listeningLine ":0") :=
  (startup_log_line ["--listen-addr", ":0"] (fun _ => .serves "[::]:43210") _
    (parse_listen_addr ":0")).1


/-! ### Routing by the mux that `main` sets up -/

theorem string_append_eq_empty (a b : String) (h : a ++ b = "") : b = "" := by
  have := congrArg String.data h
  simp only [String.data_append] at this
  have hb : b.data = [] := (List.append_eq_nil.mp this).2
  exact String.ext hb

theorem string_append_slash (c : String) (h : c ++ "/" = "/") : c = "" := by
  have := congrArg String.data h
  simp only [String.data_append] at this
  have hl := congrArg List.length this
  simp at hl
  exact String.ext (List.length_eq_zero.mp (by simpa using hl))

theorem staticMux_shouldRedirect (host path : String) :
    staticMux.shouldRedirectRLocked host path = false := by
  unfold ServeMux.shouldRedirectRLocked
  simp only []
  split_ifs with h1 h2 h3
  · rfl
  · rfl
  · exfalso
    simp only [staticMux, List.any_cons, List.any_nil, Bool.or_false, Bool.or_eq_true,
      beq_iff_eq] at h3
    have hpe : path ≠ "" := by
      intro h; subst h; simp at h2
    rcases h3 with h3 | h3
    · exact hpe (string_append_slash _ h3.symm)
    · exact hpe (string_append_eq_empty host path (string_append_slash _ h3.symm))
  · rfl

theorem staticMux_redirectToPathSlash (host path q : String) :
    staticMux.redirectToPathSlash host path q = none := by
  simp [ServeMux.redirectToPathSlash, staticMux_shouldRedirect]

theorem staticMux_handler_rooted (host path : String) (h : path.toList.head? = some '/') :
    staticMux.handler host path = (.FileServer "./static", "/") := by
  obtain ⟨l⟩ := path
  cases l with
  | nil => simp at h
  | cons c t =>
    simp only [String.toList, List.head?_cons, Option.some.injEq] at h
    subst h
    by_cases ht : t = []
    · subst ht; rfl
    · have hne : (("/" : String) == String.mk ('/' :: t)) = false := by
        rw [beq_eq_false_iff_ne]
        intro he
        have := congrArg String.data he
        simp at this
        exact ht this
      simp [ServeMux.handler, ServeMux.match_, staticMux, List.find?, hne, List.isPrefixOf]

theorem staticMux_handler_unrooted (host path : String) (h : path.toList.head? ≠ some '/') :
    staticMux.handler host path = (.NotFoundHandler, "") := by
  obtain ⟨l⟩ := path
  have hne : (("/" : String) == String.mk l) = false := by
    rw [beq_eq_false_iff_ne]
    intro he
    have := congrArg String.data he
    simp only at this
    rw [← this] at h
    exact h rfl
  have hpre : List.isPrefixOf ['/'] l = false := by
    cases l with
    | nil => rfl
    | cons c t =>
      simp only [String.toList, List.head?_cons, ne_eq, Option.some.injEq] at h
      simp [List.isPrefixOf, Ne.symm h]
  simp [ServeMux.handler, ServeMux.match_, staticMux, List.find?, hne, hpre]

theorem cleanPath_head (p : String) : (cleanPath p).toList.head? = some '/' :=
  (cleanPathBytes_spec p.toList).1

/-- The handler the mux of `main` picks for a request that is not `CONNECT`: a redirect to
the cleaned path when the path the release routes on is not canonical, the file server
otherwise.  The method and the host are not looked at. -/
theorem staticMux_Handler (rel : MuxRelease) (strip : String → String) (r : Request)
    (hm : r.Method ≠ "CONNECT") :
    staticMux.Handler rel strip r =
      if cleanPath (rel.pathOf r) ≠ rel.pathOf r then
        (.RedirectHandler { Path := cleanPath (rel.pathOf r), RawQuery := r.RawQuery } rel.code,
          "/")
      else (.FileServer "./static", "/") := by
  unfold ServeMux.Handler
  rw [if_neg hm]
  simp only [staticMux_redirectToPathSlash]
  split_ifs with h
  · rw [staticMux_handler_rooted _ _ (cleanPath_head (rel.pathOf r))]
  · have h' : cleanPath (rel.pathOf r) = rel.pathOf r := not_not.mp h
    apply staticMux_handler_rooted
    rw [← h']
    exact cleanPath_head (rel.pathOf r)

theorem staticMux_Handler_connect (rel : MuxRelease) (strip : String → String) (r : Request)
    (hm : r.Method = "CONNECT") :
    staticMux.Handler rel strip r = staticMux.handler r.Host (rel.pathOf r) := by
  unfold ServeMux.Handler
  rw [if_pos hm]
  simp only [staticMux_redirectToPathSlash]

theorem MuxRelease.code_cases (rel : MuxRelease) : rel.code = 301 ∨ rel.code = 307 := by
  unfold MuxRelease.code
  split_ifs
  · exact Or.inr rfl
  · exact Or.inl rfl

/-- The answer of the server `main` started, once the flags are parsed and the listener is
up: it is `serverHandler` with the `nil` handler over the mux holding the file server. -/
theorem main_respond (args : List String) (net : Net) (f : FlagSet) (bound : String)
    (rel : MuxRelease) (strip : String → String) (files : FileServing) (r : Request)
    (hp : (CommandLine.StringVar "listen-addr" ":5000").Parse args = .ok f)
    (hn : net ((f.lookup "listen-addr").getD "") = .serves bound) :
    (main args net).respond rel strip files r
      = some (serverHandler none staticMux rel strip files r) := by
  rw [main_serves args net f bound hp hn]
  rfl

/-- On a release whose mux cleans the escaped path, a request whose `..` arrives
percent-encoded is not redirected: `GET /%2e%2e/hello.txt` reaches the file server (here a
stand-in that answers 200 with the body `hi`), while a release whose mux cleans the decoded
path redirects it to `/hello.txt`. -/
theorem encoded_dotdot_reaches_file_server :
    (main [] (fun _ => .serves "[::]:5000")).respond { escaped := true, temporary := true }
        (fun _ => "localhost") (fun _ _ => (200, "hi"))
        { Method := "GET", RequestURI := "/%2e%2e/hello.txt", Host := "localhost:5000",
          URLHost := "", Path := "/../hello.txt", EscapedPath := "/%2e%2e/hello.txt",
          RawQuery := "" }
      = some (.file 200 "hi")
    ∧ (main [] (fun _ => .serves "[::]:5000")).respond { escaped := false, temporary := false }
        (fun _ => "localhost") (fun _ _ => (200, "hi"))
        { Method := "GET", RequestURI := "/%2e%2e/hello.txt", Host := "localhost:5000",
          URLHost := "", Path := "/../hello.txt", EscapedPath := "/%2e%2e/hello.txt",
          RawQuery := "" }
      = some (.redirect { Path := "/hello.txt", RawQuery := "" } 301) := by
  decide

/-- C6 as stated fails: on the server `main` starts, `GET /../../etc/passwd` is answered
by the mux with a redirect to the cleaned path `/etc/passwd`, status 307 (status 301 on a
release whose mux redirects permanently); the status is neither 403 nor 404. -/
theorem traversal_get_is_redirected :
    (main [] (fun _ => .serves "[::]:5000")).respond { escaped := true, temporary := true }
        (fun _ => "localhost") (fun _ _ => (404, "404 page not found\n"))
        { Method := "GET", RequestURI := "/../../etc/passwd", Host := "localhost:5000",
          URLHost := "", Path := "/../../etc/passwd", EscapedPath := "/../../etc/passwd",
          RawQuery := "" }
      = some (.redirect { Path := "/etc/passwd", RawQuery := "" } 307)
    ∧ (main [] (fun _ => .serves "[::]:5000")).respond { escaped := false, temporary := false }
        (fun _ => "localhost") (fun _ _ => (404, "404 page not found\n"))
        { Method := "GET", RequestURI := "/../../etc/passwd", Host := "localhost:5000",
          URLHost := "", Path := "/../../etc/passwd", EscapedPath := "/../../etc/passwd",
          RawQuery := "" }
      = some (.redirect { Path := "/etc/passwd", RawQuery := "" } 301)
    ∧ (Response.redirect { Path := "/etc/passwd", RawQuery := "" } 307).status ≠ 403
    ∧ (Response.redirect { Path := "/etc/passwd", RawQuery := "" } 307).status ≠ 404
    ∧ (Response.redirect { Path := "/etc/passwd", RawQuery := "" } 301).status ≠ 403
    ∧ (Response.redirect { Path := "/etc/passwd", RawQuery := "" } 301).status ≠ 404 := by
  decide

/-- C6, amended: on the server `main` starts, built with any release of `net/http`, a request
other than `CONNECT` whose path, as the mux of that release reads it (the path as sent
since Go 1.22, the decoded path before), has a `..` element (in particular
`GET /../../etc/passwd`) is answered by the mux itself with a redirect to the cleaned path,
status 307 or 301 according to the release; the cleaned path is rooted and has no `..`
element, and the answer is the same whatever the file server and the file system hold, so it
never is 200, 403 or 404 and never carries the contents of any file. -/
theorem traversal_redirected (args : List String) (net : Net) (f : FlagSet) (bound : String)
    (rel : MuxRelease) (strip : String → String) (files : FileServing) (r : Request)
    (hp : (CommandLine.StringVar "listen-addr" ":5000").Parse args = .ok f)
    (hn : net ((f.lookup "listen-addr").getD "") = .serves bound)
    (hm : r.Method ≠ "CONNECT") (hu : r.RequestURI ≠ "*")
    (hd : hasDotDot (rel.pathOf r).toList) :
    (main args net).respond rel strip files r
        = some (.redirect { Path := cleanPath (rel.pathOf r), RawQuery := r.RawQuery } rel.code)
    ∧ (rel.code = 301 ∨ rel.code = 307)
    ∧ (cleanPath (rel.pathOf r)).toList.head? = some '/'
    ∧ ¬ hasDotDot (cleanPath (rel.pathOf r)).toList
    ∧ ∀ files' : FileServing,
        (main args net).respond rel strip files' r = (main args net).respond rel strip files r := by
  have key : ∀ fl : FileServing, (main args net).respond rel strip fl r
      = some (.redirect { Path := cleanPath (rel.pathOf r), RawQuery := r.RawQuery }
          rel.code) := by
    intro fl
    rw [main_respond args net f bound rel strip fl r hp hn]
    have hne := cleanPath_ne_of_hasDotDot (rel.pathOf r) hd
    have hu' : ¬ (r.RequestURI = "*" ∧ r.Method = "OPTIONS") := fun h => hu h.1
    simp only [serverHandler, if_neg hu', ServeMux.ServeHTTP, if_neg hu,
      staticMux_Handler rel strip r hm, if_pos hne, Handler.ServeHTTP]
  refine ⟨key files, rel.code_cases, cleanPath_head (rel.pathOf r),
    (cleanPathBytes_spec (rel.pathOf r).toList).2, ?_⟩
  intro files'
  rw [key files', key files]

/-- C6, at the request of the claim: `GET /../../etc/passwd` is redirected to
`/etc/passwd` with status 307 on a release whose mux cleans the escaped path and redirects
temporarily, whatever the file server would have answered. -/
theorem traversal_redirected_witness :
    (main [] (fun _ => .serves "[::]:5000")).respond { escaped := true, temporary := true }
        (fun _ => "localhost") (fun _ _ => (200, "root:x:0:0:root:/root:/bin/sh\n"))
        { Method := "GET", RequestURI := "/../../etc/passwd", Host := "localhost:5000",
          URLHost := "", Path := "/../../etc/passwd", EscapedPath := "/../../etc/passwd",
          RawQuery := "" }
      = some (.redirect { Path := cleanPath "/../../etc/passwd", RawQuery := "" } 307) :=
  (traversal_redirected [] (fun _ => .serves "[::]:5000") _ "[::]:5000"
    { escaped := true, temporary := true } (fun _ => "localhost")
    (fun _ _ => (200, "root:x:0:0:root:/root:/bin/sh\n"))
    { Method := "GET", RequestURI := "/../../etc/passwd", Host := "localhost:5000",
      URLHost := "", Path := "/../../etc/passwd", EscapedPath := "/../../etc/passwd",
      RawQuery := "" }
    parse_nil rfl (by decide) (by decide) (by decide)).1

/-- C5 as stated fails: on the server `main` starts, `POST //hello.txt` is answered with the
mux's redirect to `/hello.txt`, status 307 (status 301 on a release whose mux redirects
permanently), not with 405. -/
theorem post_is_not_rejected :
    (main [] (fun _ => .serves "[::]:5000")).respond { escaped := true, temporary := true }
        (fun _ => "localhost") (fun _ _ => (404, "404 page not found\n"))
        { Method := "POST", RequestURI := "//hello.txt", Host := "localhost:5000",
          URLHost := "", Path := "//hello.txt", EscapedPath := "//hello.txt", RawQuery := "" }
      = some (.redirect { Path := "/hello.txt", RawQuery := "" } 307)
    ∧ (main [] (fun _ => .serves "[::]:5000")).respond { escaped := false, temporary := false }
        (fun _ => "localhost") (fun _ _ => (404, "404 page not found\n"))
        { Method := "POST", RequestURI := "//hello.txt", Host := "localhost:5000",
          URLHost := "", Path := "//hello.txt", EscapedPath := "//hello.txt", RawQuery := "" }
      = some (.redirect { Path := "/hello.txt", RawQuery := "" } 301)
    ∧ (Response.redirect { Path := "/hello.txt", RawQuery := "" } 307).status ≠ 405
    ∧ (Response.redirect { Path := "/hello.txt", RawQuery := "" } 301).status ≠ 405 := by
  decide

/-- C5, amended: the server `main` starts makes no method check of its own, whatever the
release of `net/http` it is built with.  For every request other than `CONNECT` (and other
than the `*` form), whatever its method, the mux answers with its redirect (status 307 or
301 according to the release) when the path it reads is not in canonical form, and
otherwise hands the request unchanged to the file server of `./static`; and for every
request whatsoever, a 405 answer can only be one that the file server itself wrote. -/
theorem no_method_filter (args : List String) (net : Net) (f : FlagSet) (bound : String)
    (rel : MuxRelease) (strip : String → String) (files : FileServing) (r : Request)
    (hp : (CommandLine.StringVar "listen-addr" ":5000").Parse args = .ok f)
    (hn : net ((f.lookup "listen-addr").getD "") = .serves bound) :
    (r.Method ≠ "CONNECT" → r.RequestURI ≠ "*" →
        (main args net).respond rel strip files r = some
          (if cleanPath (rel.pathOf r) ≠ rel.pathOf r then
            .redirect { Path := cleanPath (rel.pathOf r), RawQuery := r.RawQuery } rel.code
          else .file (files "./static" r).1 (files "./static" r).2))
    ∧ (rel.code = 301 ∨ rel.code = 307)
    ∧ (∀ resp : Response, (main args net).respond rel strip files r = some resp →
        resp.status = 405 →
          resp = .file (files "./static" r).1 (files "./static" r).2
          ∧ (files "./static" r).1 = 405) := by
  have hcode := rel.code_cases
  rw [main_respond args net f bound rel strip files r hp hn]
  refine ⟨?_, hcode, ?_⟩
  · intro hm hu
    have hu' : ¬ (r.RequestURI = "*" ∧ r.Method = "OPTIONS") := fun h => hu h.1
    simp only [serverHandler, if_neg hu', ServeMux.ServeHTTP, if_neg hu,
      staticMux_Handler rel strip r hm]
    split_ifs <;> rfl
  · intro resp hr hs
    simp only [Option.some.injEq] at hr
    subst hr
    unfold serverHandler at hs ⊢
    split_ifs at hs ⊢ with h1
    · simp [Response.status] at hs
    · simp only [ServeMux.ServeHTTP] at hs ⊢
      split_ifs at hs ⊢ with h2
      · simp [Response.status] at hs
      · by_cases hm : r.Method = "CONNECT"
        · rw [staticMux_Handler_connect rel strip r hm] at hs ⊢
          by_cases hh : (rel.pathOf r).toList.head? = some '/'
          · rw [staticMux_handler_rooted _ _ hh] at hs ⊢
            exact ⟨rfl, hs⟩
          · rw [staticMux_handler_unrooted _ _ hh] at hs
            simp [Handler.ServeHTTP, Response.status] at hs
        · rw [staticMux_Handler rel strip r hm] at hs ⊢
          split_ifs at hs ⊢ with h3
          · simp only [Handler.ServeHTTP, Response.status] at hs
            rcases hcode with hc | hc <;> omega
          · exact ⟨rfl, hs⟩

/-- C5, at a concrete request: `DELETE /hello.txt` reaches the file server unchanged; the
answer is whatever the file server writes for it (here a stand-in that answers 200 with the
body `hi` for that path). -/
theorem no_method_filter_witness :
    (main [] (fun _ => .serves "[::]:5000")).respond { escaped := true, temporary := true }
        (fun _ => "localhost")
        (fun _ r => if r.Path = "/hello.txt" then (200, "hi") else (404, "404 page not found\n"))
        { Method := "DELETE", RequestURI := "/hello.txt", Host := "localhost:5000",
          URLHost := "", Path := "/hello.txt", EscapedPath := "/hello.txt", RawQuery := "" }
      = some (.file 200 "hi") :=
  ((no_method_filter [] (fun _ => .serves "[::]:5000") _ "[::]:5000"
    { escaped := true, temporary := true } (fun _ => "localhost")
    (fun _ r => if r.Path = "/hello.txt" then (200, "hi") else (404, "404 page not found\n"))
    { Method := "DELETE", RequestURI := "/hello.txt", Host := "localhost:5000",
      URLHost := "", Path := "/hello.txt", EscapedPath := "/hello.txt", RawQuery := "" }
    parse_nil rfl).1 (by decide) (by decide))

end StaticServer
